import Mathlib

/-!
Shallow embedding of the highlight-detection core of the repository
(`backend/services/highlight_detector.py`), together with theorems that
settle the specification claims about it.

Modelling conventions:
* Python floats are modelled exactly as rationals (`ℚ`); the one genuinely
  non-rational operation, `numpy.std` (a square root), is passed in as an
  explicit function parameter `std : List ℚ → ℚ` so that every theorem is
  stated for the mathematically true standard deviation via the
  characterisation `0 ≤ std xs ∧ (std xs)^2 = variance xs`; concrete
  evaluations only use inputs whose variance is a perfect rational square,
  where `Rat.sqrt` of the variance coincides with the true value.
* The float `NaN` produced by `numpy.mean` of an empty slice is modelled by
  `Option ℚ` scores: `none` is NaN, `some q` a real value.
* Python strings are `List Char` (ASCII test data).
* A Python `raise` escaping a function is modelled with `Except PyErr`.
-/

namespace YT

/-- Python `str.split()` / `str.strip()` whitespace class (ASCII part). -/
def isSpaceChar (c : Char) : Bool :=
  c = ' ' || c = '\t' || c = '\n' || c = '\r' || c = Char.ofNat 11 || c = Char.ofNat 12

/-- Python `str.strip()`: drop leading and trailing whitespace. -/
def pyStrip (s : List Char) : List Char :=
  ((s.dropWhile isSpaceChar).reverse.dropWhile isSpaceChar).reverse

/-- Helper for `pyWords`, accumulating the current word reversed. -/
def pyWordsAux : List Char → List Char → List (List Char)
  | [], acc => if acc.isEmpty then [] else [acc.reverse]
  | c :: cs, acc =>
    if isSpaceChar c then
      if acc.isEmpty then pyWordsAux cs [] else acc.reverse :: pyWordsAux cs []
    else pyWordsAux cs (c :: acc)

/-- Python `str.split()` with no argument: split on whitespace runs,
no empty words. -/
def pyWords (s : List Char) : List (List Char) := pyWordsAux s []

/-- Python `str.lower()` (ASCII). -/
def lowerChars (s : List Char) : List Char := s.map Char.toLower

/-- Python `needle in hay` substring test on strings. -/
def containsSub : List Char → List Char → Bool
  | [], needle => needle.isEmpty
  | h :: t, needle => needle.isPrefixOf (h :: t) || containsSub t needle

/-- Number of (possibly overlapping) occurrences of a nonempty `needle`
in `hay`: the number of positions where `needle` starts. -/
def occCount : List Char → List Char → ℕ
  | [], _ => 0
  | h :: t, needle => (if needle.isPrefixOf (h :: t) then 1 else 0) + occCount t needle

/-- Python `s.count(c)` for a single character. -/
def charCount (s : List Char) (c : Char) : ℕ := s.count c

/-- One transcript segment (`{"start": .., "end": .., "text": .., "confidence": ..}`);
`confidence` is `segment.get("confidence", 0.0)`, absence modelled as `0`. -/
structure Segment where
  start : ℚ
  stop : ℚ
  text : List Char
  confidence : ℚ := 0
  deriving DecidableEq, Repr

/-- The audio-feature dictionary in the case where it carries the keys the
detector reads (`rms_energy`, `time_axis`); the provider returning `{}` or
`{"duration": 0}` (no `rms_energy` key) is modelled as `Option.none`
upstream. -/
structure AudioFeatures where
  time_axis : List ℚ
  rms_energy : List ℚ
  deriving DecidableEq, Repr

/-- A scored segment as built in `_score_segments`. Its `score` is an
`Option ℚ`: `none` models float NaN. -/
structure ScoredSegment where
  start_time : ℚ
  end_time : ℚ
  text : List Char
  score : Option ℚ
  confidence : ℚ
  deriving DecidableEq, Repr

/-- An output highlight as built in `_select_highlights` / `_fallback_highlights`. -/
structure Highlight where
  start_time : ℚ
  end_time : ℚ
  text : List Char
  score : Option ℚ
  title : List Char
  deriving DecidableEq, Repr

/-- The list `self.engagement_keywords` from `HighlightDetector.__init__`. -/
def engagement_keywords : List (List Char) :=
  ["amazing".data, "incredible".data, "wow".data, "unbelievable".data, "shocking".data,
   "surprising".data,
   "important".data, "crucial".data, "key".data, "essential".data, "must".data, "never".data,
   "always".data,
   "secret".data, "hidden".data, "revealed".data, "discovery".data, "breakthrough".data,
   "game-changer".data,
   "mistake".data, "error".data, "wrong".data, "right".data, "correct".data, "truth".data,
   "fact".data,
   "question".data, "answer".data, "solution".data, "problem".data, "issue".data,
   "challenge".data,
   "tip".data, "trick".data, "hack".data, "method".data, "technique".data, "strategy".data,
   "way".data,
   "best".data, "worst".data, "top".data, "bottom".data, "first".data, "last".data,
   "only".data, "unique".data]

/-- The list `self.emotion_keywords` from `HighlightDetector.__init__`. -/
def emotion_keywords : List (List Char) :=
  ["love".data, "hate".data, "excited".data, "angry".data, "sad".data, "happy".data,
   "frustrated".data,
   "confused".data, "surprised".data, "shocked".data, "amazed".data, "disappointed".data]

/-- The per-segment feature lists built by `_extract_text_features`. -/
structure TextFeatures where
  engagement_scores : List ℚ
  emotion_scores : List ℚ
  question_scores : List ℚ
  exclamation_scores : List ℚ
  word_counts : List ℕ
  speaking_rates : List ℚ
  deriving DecidableEq, Repr

/-- Engagement-keyword feature of one segment (line 71 of the detector):
how many keywords pass the Python substring test `keyword in text`. -/
def engagementOf (seg : Segment) : ℚ :=
  ((engagement_keywords.filter fun k => containsSub (lowerChars seg.text) k).length : ℚ)

/-- Emotion-keyword feature of one segment (line 75). -/
def emotionOf (seg : Segment) : ℚ :=
  ((emotion_keywords.filter fun k => containsSub (lowerChars seg.text) k).length : ℚ)

/-- Question-mark count of one segment (line 79). -/
def questionsOf (seg : Segment) : ℚ := (charCount (lowerChars seg.text) '?' : ℚ)

/-- Exclamation-mark count of one segment (line 83). -/
def exclamationsOf (seg : Segment) : ℚ := (charCount (lowerChars seg.text) '!' : ℚ)

/-- Whitespace-token count of one segment (line 68). -/
def wordCountOf (seg : Segment) : ℕ := (pyWords (lowerChars seg.text)).length

/-- Speaking rate `word_count / max(duration, 1)` of one segment (line 90). -/
def speakingRateOf (seg : Segment) : ℚ :=
  (wordCountOf seg : ℚ) / max (seg.stop - seg.start) 1

/-- Embedding of `_extract_text_features`: one loop over the transcript appending to six
lists, rendered as six maps over the transcript. -/
def extract_text_features (tr : List Segment) : TextFeatures where
  engagement_scores := tr.map engagementOf
  emotion_scores := tr.map emotionOf
  question_scores := tr.map questionsOf
  exclamation_scores := tr.map exclamationsOf
  word_counts := tr.map wordCountOf
  speaking_rates := tr.map speakingRateOf

/-- numpy `.mean()`; callers only apply it to nonempty lists (`ℚ` division
by zero would otherwise yield `0`). -/
def meanQ (xs : List ℚ) : ℚ := xs.sum / xs.length

/-- The square of numpy `.std()`: the population variance. -/
def varQ (xs : List ℚ) : ℚ := ((xs.map fun x => (x - meanQ xs) ^ 2).sum) / xs.length

/-- States that `std` agrees with the true (exact-real) standard deviation on `xs`. -/
def StdSpecOn (std : List ℚ → ℚ) (xs : List ℚ) : Prop :=
  0 ≤ std xs ∧ (std xs) ^ 2 = varQ xs

/-- Elementwise `(arr - arr.mean()) / max(arr.std(), 1)` (lines 119-121);
`std` is the standard-deviation function, a parameter (see file header). -/
def normalize (std : List ℚ → ℚ) (xs : List ℚ) : List ℚ :=
  xs.map fun x => (x - meanQ xs) / max (std xs) 1

/-- Embedding of `np.searchsorted(a, v)` (side `left`) on a sorted list: the number of
leading entries strictly below `v`. -/
def searchsorted (a : List ℚ) (v : ℚ) : ℕ := (a.takeWhile fun x => x < v).length

/-- Embedding of `np.mean` of a possibly empty slice: `none` (float NaN) on `[]`. -/
def npMean (xs : List ℚ) : Option ℚ := if xs.isEmpty then none else some (meanQ xs)

/-- The audio part of the `_score_segments` loop body (lines 134-152): the
amount it adds to `score`; `some 0` when the guards skip the block, `none`
when `np.mean` of an empty slice turns the score into NaN. -/
def energyContribution (audio : Option AudioFeatures) (s e : ℚ) : Option ℚ :=
  match audio with
  | none => some 0
  | some af =>
    if 0 < af.time_axis.length ∧ 0 < af.rms_energy.length then
      let si := searchsorted af.time_axis s
      let ei := searchsorted af.time_axis e
      if si < af.rms_energy.length ∧ ei ≤ af.rms_energy.length then
        match npMean ((af.rms_energy.drop si).take (ei - si)) with
        | some m => some (min (m * 10) 1 * (2/10))
        | none => none
      else some 0
    else some 0

/-- Body of the `for i, segment in enumerate(transcription)` loop of
`_score_segments` (lines 123-160). -/
def scoreRow (engN emoN q ex rateN : List ℚ) (audio : Option AudioFeatures)
    (i : ℕ) (seg : Segment) : ScoredSegment :=
  let base := engN.getD i 0 * (3/10) + emoN.getD i 0 * (2/10) +
    q.getD i 0 * (1/10) + ex.getD i 0 * (1/10) + min (rateN.getD i 0) 2 * (1/10)
  { start_time := seg.start, end_time := seg.stop, text := seg.text,
    score := (energyContribution audio seg.start seg.stop).map fun c => base + c,
    confidence := seg.confidence }

/-- The enumerate loop itself, carrying the running index. -/
def scoreLoop (engN emoN q ex rateN : List ℚ) (audio : Option AudioFeatures) :
    ℕ → List Segment → List ScoredSegment
  | _, [] => []
  | i, sg :: rest =>
    scoreRow engN emoN q ex rateN audio i sg ::
      scoreLoop engN emoN q ex rateN audio (i + 1) rest

/-- Embedding of `_score_segments`. -/
def score_segments (std : List ℚ → ℚ) (tr : List Segment) (tf : TextFeatures)
    (audio : Option AudioFeatures) : List ScoredSegment :=
  let engN := if 1 < tf.engagement_scores.length
    then normalize std tf.engagement_scores else tf.engagement_scores
  let emoN := if 1 < tf.engagement_scores.length
    then normalize std tf.emotion_scores else tf.emotion_scores
  let rateN := if 1 < tf.engagement_scores.length
    then normalize std tf.speaking_rates else tf.speaking_rates
  scoreLoop engN emoN tf.question_scores tf.exclamation_scores rateN audio 0 tr

/-- ASCII `\w` of `re`. -/
def isWordChar (c : Char) : Bool := c.isAlphanum || c = '_'

/-- Embedding of `re.sub` removing characters outside word chars, whitespace, hyphens: keep word chars, whitespace, hyphens. -/
def cleanTitle (s : List Char) : List Char :=
  s.filter fun c => isWordChar c || isSpaceChar c || c = '-'

/-- Python `str.title()` (ASCII): upper-case a letter not preceded by a
letter, lower-case the rest. -/
def titleCaseAux : Bool → List Char → List Char
  | _, [] => []
  | prevAlpha, c :: cs =>
    if c.isAlpha then
      (if prevAlpha then c.toLower else c.toUpper) :: titleCaseAux true cs
    else c :: titleCaseAux false cs

/-- Python `str.title()` (ASCII). -/
def titleCase (s : List Char) : List Char := titleCaseAux false s

/-- Embedding of `_generate_title`. -/
def generate_title (text : List Char) : List Char :=
  let ws := (pyWords (pyStrip text)).take 6
  let t1 := List.intercalate (" ".data) ws
  let t2 := pyStrip (cleanTitle t1)
  if t2.isEmpty then "Highlight".data else titleCase t2

/-- Python float `<` on scores where any comparison with NaN is `False`. -/
def scoreLt : Option ℚ → Option ℚ → Bool
  | some a, some b => a < b
  | _, _ => false

/-- Stable insertion for descending-by-score order: walk past `y` only when
`x`'s score is strictly below `y`'s, so equal scores keep original order,
matching stable `sorted(key=..., reverse=True)` (ties and the NaN-free
case; with NaN present every comparison is `False` and the original order
is kept). -/
def insertByScore (x : ScoredSegment) : List ScoredSegment → List ScoredSegment
  | [] => [x]
  | y :: ys => if scoreLt x.score y.score then y :: insertByScore x ys else x :: y :: ys

/-- Embedding of `sorted(scored_segments, key=lambda x: x["score"], reverse=True)`. -/
def sortByScoreDesc (l : List ScoredSegment) : List ScoredSegment :=
  l.foldr insertByScore []

/-- Duration repair (lines 181-193). -/
def repairInterval (mnd mxd s e : ℚ) : ℚ × ℚ :=
  let d := e - s
  if d < mnd ∨ d > mxd then
    if d < mnd then (max 0 (s - (mnd - d) / 2), e + (mnd - d) / 2)
    else (s, s + mxd)
  else (s, e)

/-- The half-open overlap scan against `used_time_ranges` (lines 196-200). -/
def overlapsAny (used : List (ℚ × ℚ)) (s e : ℚ) : Bool :=
  used.any fun p => s < p.2 && e > p.1

/-- The `for segment in sorted_segments` loop of `_select_highlights`,
carrying the accumulated `highlights` and `used_time_ranges`. -/
def selectLoop (mc : ℕ) (mnd mxd : ℚ) :
    List ScoredSegment → List Highlight → List (ℚ × ℚ) → List Highlight
  | [], hs, _ => hs
  | seg :: rest, hs, used =>
    if mc ≤ hs.length then hs
    else
      let p := repairInterval mnd mxd seg.start_time seg.end_time
      if overlapsAny used p.1 p.2 then selectLoop mc mnd mxd rest hs used
      else selectLoop mc mnd mxd rest
        (hs ++ [{ start_time := p.1, end_time := p.2, text := seg.text,
                  score := seg.score, title := generate_title seg.text }])
        (used ++ [p])

/-- Embedding of `_select_highlights`. -/
def select_highlights (scored : List ScoredSegment) (mc : ℕ) (mnd mxd : ℚ) :
    List Highlight :=
  selectLoop mc mnd mxd (sortByScoreDesc scored) [] []

/-- Text gathered for one fallback window (lines 246-249); each matching
segment contributes its text plus a trailing space. -/
def windowText (tr : List Segment) (s e : ℚ) : List Char :=
  (tr.filter fun sg => s ≤ sg.start && sg.stop ≤ e).foldl
    (fun acc sg => acc ++ sg.text ++ [' ']) []

/-- Decimal digits used by `f"Highlight {i+1}"`. -/
def natChars (n : ℕ) : List Char := Nat.toDigits 10 n

/-- The `for i in range(max_clips)` loop of `_fallback_highlights`: `n` is
the number of remaining iterations, `i` the current 0-based index, `cur`
the running cursor, `D` the window length, `L` the transcript's last end. -/
def fallbackLoop (tr : List Segment) (D L : ℚ) : ℕ → ℕ → ℚ → List Highlight
  | 0, _, _ => []
  | n + 1, i, cur =>
    let e := min (cur + D) L
    let t := pyStrip (windowText tr cur e)
    let here : List Highlight :=
      if t.isEmpty then []
      else [{ start_time := cur, end_time := e, text := t,
              score := some (1/2), title := "Highlight ".data ++ natChars (i + 1) }]
    if L ≤ e + 10 then here
    else here ++ fallbackLoop tr D L n (i + 1) (e + 10)

/-- Embedding of `_fallback_highlights`; faithful for `max_clips ≥ 1` (the
`ZeroDivisionError` of `total_duration / max_clips` at `max_clips = 0` is
carried by `fallback_highlightsE`). -/
def fallback_highlights (tr : List Segment) (mc : ℕ) (mnd mxd : ℚ) : List Highlight :=
  match tr with
  | [] => []
  | fst :: rest =>
    let L := (rest.getLastD fst).stop
    let total := L - fst.start
    let D := min mxd (max mnd (total / (mc : ℚ)))
    fallbackLoop (fst :: rest) D L mc 0 fst.start

/-- The Python exceptions the model distinguishes. -/
inductive PyErr where
  | zeroDivision
  | featureFailure
  deriving DecidableEq, Repr

/-- Embedding of `_fallback_highlights` with its one possible raise: `ZeroDivisionError`
from `total_duration / max_clips` when `max_clips = 0` on a nonempty
transcript (the empty-transcript early return precedes the division). -/
def fallback_highlightsE (tr : List Segment) (mc : ℕ) (mnd mxd : ℚ) :
    Except PyErr (List Highlight) :=
  match tr with
  | [] => .ok []
  | _ :: _ =>
    if mc = 0 then .error .zeroDivision
    else .ok (fallback_highlights tr mc mnd mxd)

/-- Embedding of `detect_highlights`. The `failure` argument abstracts whether the body of the `try`
block raised (in Python that happens only for malformed input
dictionaries, which the typed model cannot construct); `audio` is the
result of `_extract_audio_features`, whose own exceptions are caught
internally yielding `{}`/no `rms_energy` key, i.e. `none`. -/
def detect_highlightsE (std : List ℚ → ℚ) (failure : Option PyErr)
    (audio : Option AudioFeatures) (tr : List Segment) (mc : ℕ) (mnd mxd : ℚ) :
    Except PyErr (List Highlight) :=
  match failure with
  | some _ => fallback_highlightsE tr mc mnd mxd
  | none => .ok (select_highlights
      (score_segments std tr (extract_text_features tr) audio) mc mnd mxd)

/-- The concrete standard-deviation instance used in closed evaluations:
`Rat.sqrt` of the variance, which is exact whenever the variance is a
perfect rational square; every concrete input below is chosen so that it
is (witnessed by `StdSpecOn` facts discharged by `decide`). -/
def ratStd (xs : List ℚ) : ℚ := Rat.sqrt (varQ xs)

/-- The z-score formula of the spec glossary: `(x - mean)/max(std, 1)`
over the signal list `xs`. -/
def zscore (std : List ℚ → ℚ) (xs : List ℚ) (x : ℚ) : ℚ :=
  (x - meanQ xs) / max (std xs) 1

/-- The per-segment score formula as claim C5 states it: a fixed-weight
combination of z-scored engagement, emotion and capped speaking rate plus
raw punctuation counts, plus the (optional) audio-energy term. -/
def specScoreRow (std : List ℚ → ℚ) (tf : TextFeatures) (audio : Option AudioFeatures)
    (i : ℕ) (seg : Segment) : ScoredSegment :=
  let base := zscore std tf.engagement_scores (tf.engagement_scores.getD i 0) * (3/10) +
    zscore std tf.emotion_scores (tf.emotion_scores.getD i 0) * (2/10) +
    tf.question_scores.getD i 0 * (1/10) +
    tf.exclamation_scores.getD i 0 * (1/10) +
    min (zscore std tf.speaking_rates (tf.speaking_rates.getD i 0)) 2 * (1/10)
  { start_time := seg.start, end_time := seg.stop, text := seg.text,
    score := (energyContribution audio seg.start seg.stop).map fun c => base + c,
    confidence := seg.confidence }

/-- Claim C5's formula applied along the transcript. -/
def specScoreLoop (std : List ℚ → ℚ) (tf : TextFeatures) (audio : Option AudioFeatures) :
    ℕ → List Segment → List ScoredSegment
  | _, [] => []
  | i, sg :: rest => specScoreRow std tf audio i sg :: specScoreLoop std tf audio (i + 1) rest

/-- Claim C5's description of the whole scored list. -/
def specScores (std : List ℚ → ℚ) (tr : List Segment) (audio : Option AudioFeatures) :
    List ScoredSegment :=
  specScoreLoop std (extract_text_features tr) audio 0 tr

/-- Raw (un-normalized) composite text score of a single segment: the
degenerate single-segment policy the spec prescribes. -/
def rawScore (seg : Segment) : ℚ :=
  engagementOf seg * (3/10) + emotionOf seg * (2/10) + questionsOf seg * (1/10) +
    exclamationsOf seg * (1/10) + min (speakingRateOf seg) 2 * (1/10)

/-- End timestamp of the last segment, `transcription[-1]["end"]`
(0 for the empty transcript). -/
def lastStop : List Segment → ℚ
  | [] => 0
  | fst :: rest => (rest.getLastD fst).stop

/-- Start timestamp of the first segment, `transcription[0]["start"]`
(0 for the empty transcript). -/
def firstStart : List Segment → ℚ
  | [] => 0
  | fst :: _ => fst.start

/-- The global transcript span `last.end - first.start`. -/
def globalSpan (tr : List Segment) : ℚ := lastStop tr - firstStart tr

/-- The occurrence-counting reading of claim C3: each engagement keyword
contributes its number of occurrences in the lower-cased text. -/
def specEngagementOccurrences (text : List Char) : ℚ :=
  (((engagement_keywords.map fun k => occCount (lowerChars text) k).sum : ℕ) : ℚ)

/-- The non-overlap condition of claim C1 on half-open intervals:
one highlight starts no earlier than the other ends. -/
def NoOverlap (a b : Highlight) : Prop :=
  a.start_time ≥ b.end_time ∨ b.start_time ≥ a.end_time

/-- First segment of `demoTranscript2`: one engagement keyword, 10 s long. -/
def demoSeg21 : Segment := { start := 5, stop := 15, text := ("amazing").data, confidence := 0 }

/-- Second segment of `demoTranscript2`: no keywords, 40 s long. -/
def demoSeg22 : Segment := { start := 60, stop := 100, text := ("uh").data, confidence := 0 }

/-- Two-segment transcript used in concrete evaluations; all three
normalized signals have perfect-square variance (1/4, 0 and 9/6400), so
`ratStd` is the true standard deviation on them. -/
def demoTranscript2 : List Segment := [demoSeg21, demoSeg22]

/-- The single highlight the scored path produces on `demoTranscript2` with
`max_clips = 1`, `min_duration = 30`, `max_duration = 60`: the extension of
[5, 15] is clamped at 0, leaving a 25 s highlight. -/
def demoHighlight2 : Highlight :=
  { start_time := 0, end_time := 25, text := ("amazing").data,
    score := some (123/800), title := ("Amazing").data }

/-- Two-segment transcript spanning [0, 88] whose middle fallback window
(for 3 clips) contains no whole segment. -/
def demoTranscript10 : List Segment :=
  [{ start := 0, stop := 5, text := ("hello").data, confidence := 0 },
   { start := 80, stop := 88, text := ("world").data, confidence := 0 }]

/-- A segment whose [start, end) range holds zero audio samples of
`demoAudio6`. -/
def demoSegment6 : Segment := { start := 2, stop := 3, text := ("hi").data, confidence := 0 }

/-- An audio-feature series with samples at t = 0 and t = 10 only. -/
def demoAudio6 : AudioFeatures := { time_axis := [0, 10], rms_energy := [1/2, 1/2] }

/-- Witness that a nonempty needle passes the Python substring test iff its
occurrence count is positive. -/
theorem containsSub_iff_occCount_pos (needle : List Char) (hne : needle ≠ []) :
    ∀ hay : List Char, containsSub hay needle = true ↔ 0 < occCount hay needle := by
  intro hay
  induction hay with
  | nil => simp [containsSub, occCount, List.isEmpty_iff, hne]
  | cons c t ih =>
    by_cases hp : needle.isPrefixOf (c :: t) <;>
      simp [containsSub, occCount, hp, ih]

/-- A filter-count over keywords equals the positive-occurrence count when
every keyword is nonempty. -/
theorem presence_count_eq_countP (kws : List (List Char))
    (hk : ∀ k ∈ kws, k ≠ []) (text : List Char) :
    (kws.filter fun k => containsSub text k).length =
      kws.countP fun k => decide (0 < occCount text k) := by
  rw [← List.countP_eq_length_filter]
  apply List.countP_congr
  intro k hmem
  have h := containsSub_iff_occCount_pos k (hk k hmem) text
  by_cases hc : containsSub text k = true
  · simp [hc, h.mp hc]
  · have : ¬ 0 < occCount text k := fun hlt => hc (h.mpr hlt)
    simp [Bool.eq_false_iff.mpr hc, this]

/-- C4: an exception raised inside the scored path makes the whole
detection call return exactly the fallback generator's outcome — the
caught exception is never surfaced to the caller, and only an exception
arising inside the fallback path itself (its `ZeroDivisionError`) can
propagate. -/
theorem C4_exception_swallowed_to_fallback (std : List ℚ → ℚ) (e : PyErr)
    (audio : Option AudioFeatures) (tr : List Segment) (mc : ℕ) (mnd mxd : ℚ) :
    detect_highlightsE std (some e) audio tr mc mnd mxd =
      fallback_highlightsE tr mc mnd mxd := rfl

/-- C7: on the empty transcript both the full detection call (for every
failure outcome and audio series) and the fallback generator return the
empty highlight list, with no exception. -/
theorem C7_empty_transcript (std : List ℚ → ℚ) (failure : Option PyErr)
    (audio : Option AudioFeatures) (mc : ℕ) (mnd mxd : ℚ) :
    detect_highlightsE std failure audio [] mc mnd mxd = .ok [] ∧
    fallback_highlightsE [] mc mnd mxd = .ok [] := by
  cases failure <;> exact ⟨rfl, rfl⟩

/-- C8: on a single-segment transcript z-score normalization is skipped:
for every standard-deviation function `std` the produced score is the raw
signal formula `rawScore`, which never mentions `std`, so no normalizing
division happens and scoring completes. -/
theorem C8_single_segment_raw (std : List ℚ → ℚ) (audio : Option AudioFeatures)
    (seg : Segment) :
    score_segments std [seg] (extract_text_features [seg]) audio =
      [{ start_time := seg.start, end_time := seg.stop, text := seg.text,
         score := (energyContribution audio seg.start seg.stop).map fun c =>
           rawScore seg + c,
         confidence := seg.confidence }] := rfl

/-- C10: in the fallback generator a window containing no whole segment
produces no highlight while the cursor and the 1-indexed counter still
advance: on `demoTranscript10` with 3 requested clips the middle window's
text is empty, the output has only 2 highlights and the titles jump from
"Highlight 1" to "Highlight 3". -/
theorem C10_fallback_skips_empty_windows :
    fallback_highlights demoTranscript10 3 20 40 =
      [{ start_time := 0, end_time := 88/3, text := ("hello").data,
         score := some (1/2), title := ("Highlight 1").data },
       { start_time := 236/3, end_time := 88, text := ("world").data,
         score := some (1/2), title := ("Highlight 3").data }] ∧
    (fallback_highlights demoTranscript10 3 20 40).length = 2 ∧
    pyStrip (windowText demoTranscript10 (118/3) (206/3)) = [] := by
  refine ⟨?_, ?_, ?_⟩ <;>
    norm_num +decide [fallback_highlights, demoTranscript10, fallbackLoop, windowText,
      pyStrip, natChars]

/-- On a single-segment transcript, scoring normalizes nothing and yields
the raw score plus the energy contribution. -/
theorem score_segments_singleton (std : List ℚ → ℚ) (audio : Option AudioFeatures)
    (seg : Segment) :
    score_segments std [seg] (extract_text_features [seg]) audio =
      [{ start_time := seg.start, end_time := seg.stop, text := seg.text,
         score := (energyContribution audio seg.start seg.stop).map fun c =>
           rawScore seg + c,
         confidence := seg.confidence }] := rfl

/-- C6 (code bug): a segment whose time range maps onto zero audio samples
(equal `searchsorted` indices, start index in range) does not get a no-op
energy term: `np.mean` of the empty slice is NaN and the segment's score
becomes NaN (`none`), whereas with the series absent the same segment gets
the well-defined raw score. -/
theorem C6_zero_sample_range_gives_NaN :
    searchsorted demoAudio6.time_axis demoSegment6.start =
      searchsorted demoAudio6.time_axis demoSegment6.stop ∧
    searchsorted demoAudio6.time_axis demoSegment6.start <
      demoAudio6.rms_energy.length ∧
    (score_segments ratStd [demoSegment6] (extract_text_features [demoSegment6])
        (some demoAudio6)).map (fun s => s.score) = [none] ∧
    (score_segments ratStd [demoSegment6] (extract_text_features [demoSegment6])
        none).map (fun s => s.score) = [some (1/10)] := by
  have e1 : engagementOf demoSegment6 = 0 := by decide
  have e2 : emotionOf demoSegment6 = 0 := by decide
  have e3 : questionsOf demoSegment6 = 0 := by decide
  have e4 : exclamationsOf demoSegment6 = 0 := by decide
  have w : wordCountOf demoSegment6 = 1 := by decide
  have e5 : speakingRateOf demoSegment6 = 1 := by
    simp only [speakingRateOf, w]
    norm_num [demoSegment6]
  have hraw : rawScore demoSegment6 = 1/10 := by
    simp only [rawScore, e1, e2, e3, e4, e5]
    norm_num
  have hs1 : searchsorted demoAudio6.time_axis demoSegment6.start = 1 := by
    norm_num [searchsorted, demoAudio6, demoSegment6, List.takeWhile_cons]
  have hs2 : searchsorted demoAudio6.time_axis demoSegment6.stop = 1 := by
    norm_num [searchsorted, demoAudio6, demoSegment6, List.takeWhile_cons]
  have hec : energyContribution (some demoAudio6) demoSegment6.start
      demoSegment6.stop = none := by
    simp only [energyContribution, hs1, hs2]
    norm_num [demoAudio6, npMean]
  refine ⟨by decide, by decide, ?_, ?_⟩
  · rw [score_segments_singleton]
    simp [hec]
  · rw [score_segments_singleton]
    simp only [energyContribution, List.map_cons, List.map_nil, Option.map_some]
    rw [hraw]
    norm_num

/-- C3 counterexample: on the text "amazing amazing" the code's extracted
engagement score is 1 — the membership test `keyword in text` ignores
multiplicity — while the claimed occurrence count is 2. -/
theorem C3_counterexample :
    (extract_text_features
        [{ start := 0, stop := 10, text := ("amazing amazing").data, confidence := 0 }]
      ).engagement_scores = [1] ∧
    specEngagementOccurrences (("amazing amazing").data) = 2 ∧
    (1 : ℚ) ≠ 2 := by decide

/-- C3 amended: the extracted engagement and emotion scores count, for each
segment, the keywords of the respective fixed list that occur at least
once (positive occurrence count) in the lower-cased text; a phrase
appearing k > 1 times still contributes only 1. -/
theorem C3_keyword_presence_amended (tr : List Segment) :
    (extract_text_features tr).engagement_scores = (tr.map fun seg =>
      ((engagement_keywords.countP fun k =>
        decide (0 < occCount (lowerChars seg.text) k) : ℕ) : ℚ)) ∧
    (extract_text_features tr).emotion_scores = (tr.map fun seg =>
      ((emotion_keywords.countP fun k =>
        decide (0 < occCount (lowerChars seg.text) k) : ℕ) : ℚ)) := by
  have hk1 : ∀ k ∈ engagement_keywords, k ≠ ([] : List Char) := by decide
  have hk2 : ∀ k ∈ emotion_keywords, k ≠ ([] : List Char) := by decide
  constructor
  · show tr.map engagementOf = _
    induction tr with
    | nil => rfl
    | cons sg rest ih =>
      simp only [List.map_cons, ih]
      congr 1
      simp [engagementOf, presence_count_eq_countP engagement_keywords hk1]
  · show tr.map emotionOf = _
    induction tr with
    | nil => rfl
    | cons sg rest ih =>
      simp only [List.map_cons, ih]
      congr 1
      simp [emotionOf, presence_count_eq_countP emotion_keywords hk2]

/-- C9: the generated title is the first at-most-6 whitespace words of the
text, punctuation-stripped and title-cased — on the spec's example text the
result is "This Is Amazing You Wont Believe" — and whenever the cleaned
join is empty the title is the literal "Highlight". -/
theorem C9_generate_title :
    generate_title ("this is AMAZING!!! you won't believe it").data =
      ("This Is Amazing You Wont Believe").data ∧
    ∀ t : List Char,
      pyStrip (cleanTitle (List.intercalate (" ".data) ((pyWords (pyStrip t)).take 6))) = [] →
      generate_title t = ("Highlight").data := by
  refine ⟨by decide, ?_⟩
  intro t h
  simp [generate_title, h]

/-- Witness for C9 at a purely-punctuation text. -/
theorem C9_generate_title_witness :
    generate_title ("!!!").data = ("Highlight").data :=
  C9_generate_title.2 (("!!!").data) (by decide)

/-- Reading a normalized signal list at an in-range index gives the
z-score of the raw value at that index. -/
theorem normalize_getD (std : List ℚ → ℚ) (xs : List ℚ) (i : ℕ) (h : i < xs.length) :
    (normalize std xs).getD i 0 = zscore std xs (xs.getD i 0) := by
  have hm : i < (normalize std xs).length := by simpa [normalize] using h
  rw [List.getD_eq_getElem?_getD, List.getD_eq_getElem?_getD,
    List.getElem?_eq_getElem h, List.getElem?_eq_getElem hm]
  simp [normalize, zscore]

/-- The scoring loop applied to the three normalized lists agrees with the
spec formula loop as long as the running index stays in range. -/
theorem scoreLoop_eq_spec (std : List ℚ → ℚ) (tf : TextFeatures)
    (audio : Option AudioFeatures) :
    ∀ (segs : List Segment) (i : ℕ),
      i + segs.length ≤ tf.engagement_scores.length →
      i + segs.length ≤ tf.emotion_scores.length →
      i + segs.length ≤ tf.speaking_rates.length →
      scoreLoop (normalize std tf.engagement_scores) (normalize std tf.emotion_scores)
        tf.question_scores tf.exclamation_scores (normalize std tf.speaking_rates)
        audio i segs = specScoreLoop std tf audio i segs := by
  intro segs
  induction segs with
  | nil => intro i _ _ _; rfl
  | cons sg rest ih =>
    intro i hb1 hb2 hb3
    simp only [scoreLoop, specScoreLoop]
    have h1 : i < tf.engagement_scores.length := by simp at hb1; omega
    have h2 : i < tf.emotion_scores.length := by simp at hb2; omega
    have h3 : i < tf.speaking_rates.length := by simp at hb3; omega
    congr 1
    · simp only [scoreRow, specScoreRow, normalize_getD std _ i h1,
        normalize_getD std _ i h2, normalize_getD std _ i h3]
    · apply ih (i + 1) <;> simp_all <;> omega

/-- C5: on a transcript with at least two segments, every produced score is
the fixed-weight formula 0.3 z(engagement) + 0.2 z(emotion) + 0.1
question_count + 0.1 exclamation_count + 0.1 min(z(speaking_rate), 2),
plus the 0.2-weighted clamped audio-energy term exactly when the audio
block applies (the `specScores` rendering of the claim), where
z(x) = (x - mean)/max(std, 1) over the whole transcript, for every
standard-deviation function `std` — in particular the true one. -/
theorem C5_score_formula (std : List ℚ → ℚ) (audio : Option AudioFeatures)
    (tr : List Segment) (h2 : 2 ≤ tr.length) :
    score_segments std tr (extract_text_features tr) audio = specScores std tr audio := by
  have hl1 : (extract_text_features tr).engagement_scores.length = tr.length := by
    simp [extract_text_features]
  have hl2 : (extract_text_features tr).emotion_scores.length = tr.length := by
    simp [extract_text_features]
  have hl3 : (extract_text_features tr).speaking_rates.length = tr.length := by
    simp [extract_text_features]
  have hgt : 1 < (extract_text_features tr).engagement_scores.length := by omega
  unfold score_segments specScores
  rw [if_pos hgt, if_pos hgt, if_pos hgt]
  exact scoreLoop_eq_spec std (extract_text_features tr) audio tr 0
    (by omega) (by omega) (by omega)

/-- Witness for C5 on the two-segment demo transcript with the concrete
(exact) standard-deviation function. -/
theorem C5_score_formula_witness :
    score_segments ratStd demoTranscript2 (extract_text_features demoTranscript2) none =
      specScores ratStd demoTranscript2 none :=
  C5_score_formula ratStd none demoTranscript2 (by decide)


/-- A failed overlap scan means the candidate interval clears every
recorded range on one side. -/
theorem overlapsAny_false (used : List (ℚ × ℚ)) (s e : ℚ)
    (h : overlapsAny used s e = false) :
    ∀ p ∈ used, e ≤ p.1 ∨ p.2 ≤ s := by
  intro p hp
  have hx := List.any_eq_false.mp h p hp
  simp only [Bool.and_eq_true, decide_eq_true_eq, not_and_or, not_lt] at hx
  rcases hx with h1 | h2
  · exact Or.inr h1
  · exact Or.inl h2

/-- Invariant of the selection loop: starting from at most `mc` pairwise
non-overlapping accepted highlights whose intervals are the recorded used
ranges, the loop's result again has at most `mc` pairwise non-overlapping
highlights. -/
theorem selectLoop_invariant (mc : ℕ) (mnd mxd : ℚ) :
    ∀ (scored : List ScoredSegment) (hs : List Highlight) (used : List (ℚ × ℚ)),
      used = hs.map (fun h => (h.start_time, h.end_time)) →
      hs.length ≤ mc → hs.Pairwise NoOverlap →
      (selectLoop mc mnd mxd scored hs used).length ≤ mc ∧
      (selectLoop mc mnd mxd scored hs used).Pairwise NoOverlap := by
  intro scored
  induction scored with
  | nil => intro hs used hu h1 h2; exact ⟨h1, h2⟩
  | cons sg rest ih =>
    intro hs used hu h1 h2
    simp only [selectLoop]
    by_cases hfull : mc ≤ hs.length
    · rw [if_pos hfull]; exact ⟨h1, h2⟩
    rw [if_neg hfull]
    by_cases hov : overlapsAny used
        (repairInterval mnd mxd sg.start_time sg.end_time).1
        (repairInterval mnd mxd sg.start_time sg.end_time).2
    · rw [if_pos hov]; exact ih hs used hu h1 h2
    rw [if_neg hov]
    apply ih
    · rw [hu]
      simp
    · simp only [List.length_append, List.length_cons, List.length_nil]
      omega
    · rw [List.pairwise_append]
      refine ⟨h2, List.pairwise_singleton _ _, ?_⟩
      intro a ha b hb
      simp only [List.mem_singleton] at hb
      subst hb
      have hq := overlapsAny_false _ _ _ (Bool.eq_false_iff.mpr hov)
        (a.start_time, a.end_time) (by rw [hu]; exact List.mem_map_of_mem _ ha)
      rcases hq with hq | hq
      · exact Or.inl hq
      · exact Or.inr hq

/-- The selection phase always yields at most `mc` pairwise
non-overlapping highlights. -/
theorem select_highlights_spec (scored : List ScoredSegment) (mc : ℕ) (mnd mxd : ℚ) :
    (select_highlights scored mc mnd mxd).length ≤ mc ∧
    (select_highlights scored mc mnd mxd).Pairwise NoOverlap := by
  have h := selectLoop_invariant mc mnd mxd (sortByScoreDesc scored) [] []
    (by simp) (by simp) (by simp)
  simpa [select_highlights] using h

/-- Every highlight emitted by the fallback loop starts at or after the
cursor. -/
theorem fallbackLoop_start_le (tr : List Segment) (D L : ℚ) (hD : 0 ≤ D) :
    ∀ (n i : ℕ) (cur : ℚ), ∀ h ∈ fallbackLoop tr D L n i cur, cur ≤ h.start_time := by
  intro n
  induction n with
  | zero => intro i cur h hh; simp [fallbackLoop] at hh
  | succ n ih =>
    intro i cur h hh
    simp only [fallbackLoop] at hh
    rcases min_cases (cur + D) L with ⟨he, hle⟩ | ⟨he, hlt⟩ <;> rw [he] at hh
    · by_cases hbr : L ≤ cur + D + 10
      · rw [if_pos hbr] at hh
        split at hh <;> simp_all
      · rw [if_neg hbr] at hh
        rcases List.mem_append.mp hh with hmem | hmem
        · split at hmem <;> simp_all
        · have := ih (i + 1) (cur + D + 10) h hmem
          linarith
    · have hbr : L ≤ L + 10 := by linarith
      rw [if_pos hbr] at hh
      split at hh <;> simp_all

/-- The fallback loop's output is ordered: each highlight ends before the
next begins. -/
theorem fallbackLoop_ordered (tr : List Segment) (D L : ℚ) (hD : 0 ≤ D) :
    ∀ (n i : ℕ) (cur : ℚ),
      (fallbackLoop tr D L n i cur).Pairwise fun a b => a.end_time ≤ b.start_time := by
  intro n
  induction n with
  | zero => intro i cur; simp [fallbackLoop]
  | succ n ih =>
    intro i cur
    simp only [fallbackLoop]
    by_cases hbr : L ≤ min (cur + D) L + 10
    · rw [if_pos hbr]
      split <;> simp
    · rw [if_neg hbr]
      rw [List.pairwise_append]
      refine ⟨by split <;> simp, ih (i + 1) _, ?_⟩
      intro a ha b hb
      have hstart := fallbackLoop_start_le tr D L hD n (i + 1) (min (cur + D) L + 10) b hb
      have haend : a.end_time = min (cur + D) L := by
        split at ha <;> simp_all
      linarith

/-- The fallback loop emits at most one highlight per remaining
iteration. -/
theorem fallbackLoop_length (tr : List Segment) (D L : ℚ) :
    ∀ (n i : ℕ) (cur : ℚ), (fallbackLoop tr D L n i cur).length ≤ n := by
  intro n
  induction n with
  | zero => intro i cur; simp [fallbackLoop]
  | succ n ih =>
    intro i cur
    simp only [fallbackLoop]
    by_cases hbr : L ≤ min (cur + D) L + 10
    · rw [if_pos hbr]
      split <;> simp
    · rw [if_neg hbr]
      rw [List.length_append]
      have hrec := ih (i + 1) (min (cur + D) L + 10)
      split
      · simp only [List.length_nil]
        omega
      · simp only [List.length_cons, List.length_nil]
        omega

/-- Duration repair: the repaired window never exceeds `mxd`, and reaches
at least `mnd` unless the symmetric extension was clamped at time 0. -/
theorem repairInterval_bounds (mnd mxd s e : ℚ) (hmm : mnd ≤ mxd) :
    (repairInterval mnd mxd s e).2 - (repairInterval mnd mxd s e).1 ≤ mxd ∧
    (mnd ≤ (repairInterval mnd mxd s e).2 - (repairInterval mnd mxd s e).1 ∨
      (repairInterval mnd mxd s e).1 = 0) := by
  simp only [repairInterval]
  by_cases h1 : e - s < mnd
  · rw [if_pos (Or.inl h1), if_pos h1]
    by_cases h2 : s - (mnd - (e - s)) / 2 ≤ 0
    · rw [max_eq_left h2]
      dsimp only
      exact ⟨by linarith, Or.inr rfl⟩
    · push_neg at h2
      rw [max_eq_right (le_of_lt h2)]
      dsimp only
      exact ⟨by linarith, Or.inl (by linarith)⟩
  · by_cases h3 : e - s > mxd
    · rw [if_pos (Or.inr h3), if_neg h1]
      dsimp only
      exact ⟨by linarith, Or.inl (by linarith)⟩
    · rw [if_neg (by push_neg; exact ⟨not_lt.mp h1, not_lt.mp h3⟩)]
      dsimp only
      exact ⟨by linarith [not_lt.mp h3], Or.inl (by linarith [not_lt.mp h1])⟩

/-- Every output of the selection loop is an initially accumulated
highlight or carries the repaired interval of some candidate. -/
theorem selectLoop_mem (mc : ℕ) (mnd mxd : ℚ) :
    ∀ (scored : List ScoredSegment) (hs : List Highlight) (used : List (ℚ × ℚ)),
      ∀ h ∈ selectLoop mc mnd mxd scored hs used,
        h ∈ hs ∨ ∃ sg : ScoredSegment,
          h.start_time = (repairInterval mnd mxd sg.start_time sg.end_time).1 ∧
          h.end_time = (repairInterval mnd mxd sg.start_time sg.end_time).2 := by
  intro scored
  induction scored with
  | nil => intro hs used h hh; exact Or.inl hh
  | cons sg rest ih =>
    intro hs used h hh
    simp only [selectLoop] at hh
    by_cases hfull : mc ≤ hs.length
    · rw [if_pos hfull] at hh; exact Or.inl hh
    rw [if_neg hfull] at hh
    by_cases hov : overlapsAny used (repairInterval mnd mxd sg.start_time sg.end_time).1
        (repairInterval mnd mxd sg.start_time sg.end_time).2
    · rw [if_pos hov] at hh; exact ih hs used h hh
    rw [if_neg hov] at hh
    rcases ih _ _ h hh with hmem | hex
    · rcases List.mem_append.mp hmem with hl | hr
      · exact Or.inl hl
      · simp only [List.mem_singleton] at hr
        subst hr
        exact Or.inr ⟨sg, rfl, rfl⟩
    · exact Or.inr hex

/-- Every fallback-loop highlight ends at `min (start + D) L`. -/
theorem fallbackLoop_end_eq (tr : List Segment) (D L : ℚ) :
    ∀ (n i : ℕ) (cur : ℚ), ∀ h ∈ fallbackLoop tr D L n i cur,
      h.end_time = min (h.start_time + D) L := by
  intro n
  induction n with
  | zero => intro i cur h hh; simp [fallbackLoop] at hh
  | succ n ih =>
    intro i cur h hh
    simp only [fallbackLoop] at hh
    by_cases hbr : L ≤ min (cur + D) L + 10
    · rw [if_pos hbr] at hh
      split at hh <;> simp_all
    · rw [if_neg hbr] at hh
      rcases List.mem_append.mp hh with hmem | hmem
      · split at hmem <;> simp_all
      · exact ih (i + 1) _ h hmem

/-- C2 amended: every returned highlight's duration is at most
max_duration; it is at least min_duration except when the scored path's
symmetric extension was clamped at time 0 (the highlight then starts at 0)
or the fallback window was truncated at the transcript's last end (the
highlight then ends there) — the latter subsuming the claim's
short-global-span case. -/
theorem C2_durations_amended (std : List ℚ → ℚ) (failure : Option PyErr)
    (audio : Option AudioFeatures) (tr : List Segment) (mc : ℕ) (mnd mxd : ℚ)
    (hs : List Highlight) (hmm : mnd ≤ mxd)
    (hok : detect_highlightsE std failure audio tr mc mnd mxd = .ok hs) :
    ∀ h ∈ hs, h.end_time - h.start_time ≤ mxd ∧
      (mnd ≤ h.end_time - h.start_time ∨ h.start_time = 0 ∨
        h.end_time = lastStop tr) := by
  intro h hmem
  cases failure with
  | none =>
    simp only [detect_highlightsE, Except.ok.injEq] at hok
    subst hok
    rcases selectLoop_mem mc mnd mxd _ _ _ h hmem with hempty | ⟨sg, h1, h2⟩
    · simp at hempty
    · rw [h1, h2]
      rcases repairInterval_bounds mnd mxd sg.start_time sg.end_time hmm with ⟨hb1, hb2⟩
      refine ⟨hb1, ?_⟩
      rcases hb2 with hb2 | hb2
      · exact Or.inl hb2
      · exact Or.inr (Or.inl hb2)
  | some e =>
    simp only [detect_highlightsE, fallback_highlightsE] at hok
    cases tr with
    | nil =>
      simp only [Except.ok.injEq] at hok
      subst hok
      simp at hmem
    | cons fst rest =>
      by_cases hz : mc = 0
      · rw [if_pos hz] at hok
        cases hok
      rw [if_neg hz] at hok
      simp only [Except.ok.injEq] at hok
      subst hok
      simp only [fallback_highlights] at hmem
      have hDl : mnd ≤ min mxd (max mnd (((rest.getLastD fst).stop - fst.start) / (mc : ℚ))) :=
        le_min hmm (le_max_left _ _)
      have hDu : min mxd (max mnd (((rest.getLastD fst).stop - fst.start) / (mc : ℚ))) ≤ mxd :=
        min_le_left _ _
      have hend := fallbackLoop_end_eq (fst :: rest) _ ((rest.getLastD fst).stop)
        mc 0 fst.start h hmem
      constructor
      · rw [hend]
        have := min_le_left (h.start_time +
          min mxd (max mnd (((rest.getLastD fst).stop - fst.start) / (mc : ℚ))))
          ((rest.getLastD fst).stop)
        linarith
      · rcases min_cases (h.start_time +
          min mxd (max mnd (((rest.getLastD fst).stop - fst.start) / (mc : ℚ))))
          ((rest.getLastD fst).stop) with ⟨hm, _⟩ | ⟨hm, _⟩
        · left
          rw [hend, hm]
          linarith
        · right; right
          rw [hend, hm]
          rfl
/-- The fallback generator yields at most `mc` pairwise non-overlapping
highlights whenever the duration parameters are non-negative. -/
theorem fallback_highlights_spec (tr : List Segment) (mc : ℕ) (mnd mxd : ℚ)
    (hmnd : 0 ≤ mnd) (hmxd : 0 ≤ mxd) :
    (fallback_highlights tr mc mnd mxd).length ≤ mc ∧
    (fallback_highlights tr mc mnd mxd).Pairwise NoOverlap := by
  cases tr with
  | nil => simp [fallback_highlights]
  | cons fst rest =>
    simp only [fallback_highlights]
    have hD : 0 ≤ min mxd (max mnd (((rest.getLastD fst).stop - fst.start) / (mc : ℚ))) :=
      le_min hmxd (le_trans hmnd (le_max_left _ _))
    refine ⟨fallbackLoop_length _ _ _ mc 0 _, ?_⟩
    exact (fallbackLoop_ordered _ _ _ hD mc 0 _).imp fun hab => Or.inr hab

/-- C1: whatever a detection call returns — by the scored path or by the
fallback path — holds at most `max_clips` highlights, and no two of them
have overlapping [start, end) intervals. -/
theorem C1_nonoverlap_and_count (std : List ℚ → ℚ) (failure : Option PyErr)
    (audio : Option AudioFeatures) (tr : List Segment) (mc : ℕ) (mnd mxd : ℚ)
    (hs : List Highlight) (hmnd : 0 ≤ mnd) (hmxd : 0 ≤ mxd)
    (hok : detect_highlightsE std failure audio tr mc mnd mxd = .ok hs) :
    hs.length ≤ mc ∧
    ∀ (i j : ℕ) (hi : i < hs.length) (hj : j < hs.length), i ≠ j →
      (hs.get ⟨i, hi⟩).start_time ≥ (hs.get ⟨j, hj⟩).end_time ∨
      (hs.get ⟨j, hj⟩).start_time ≥ (hs.get ⟨i, hi⟩).end_time := by
  have key : hs.length ≤ mc ∧ hs.Pairwise NoOverlap := by
    cases failure with
    | none =>
      simp only [detect_highlightsE, Except.ok.injEq] at hok
      subst hok
      exact select_highlights_spec _ _ _ _
    | some e =>
      simp only [detect_highlightsE, fallback_highlightsE] at hok
      cases tr with
      | nil =>
        simp only [Except.ok.injEq] at hok
        subst hok
        simp
      | cons fst rest =>
        by_cases hz : mc = 0
        · rw [if_pos hz] at hok
          cases hok
        rw [if_neg hz] at hok
        simp only [Except.ok.injEq] at hok
        subst hok
        exact fallback_highlights_spec _ _ _ _ hmnd hmxd
  refine ⟨key.1, ?_⟩
  intro i j hi hj hne
  have hp := List.pairwise_iff_get.mp key.2
  rcases Nat.lt_or_ge i j with hij | hij
  · exact hp ⟨i, hi⟩ ⟨j, hj⟩ hij
  · have hji : j < i := lt_of_le_of_ne hij (Ne.symm hne)
    rcases hp ⟨j, hj⟩ ⟨i, hi⟩ hji with hc | hc
    · exact Or.inr hc
    · exact Or.inl hc

/-- Witness for C1 on the fallback path of a concrete call. -/
theorem C1_nonoverlap_and_count_witness :
    (fallback_highlights demoTranscript10 3 20 40).length ≤ 3 :=
  (C1_nonoverlap_and_count ratStd (some PyErr.featureFailure) none demoTranscript10 3 20 40
    (fallback_highlights demoTranscript10 3 20 40) (by norm_num) (by norm_num) rfl).1

/-- Concrete evaluation of the fallback generator on `demoTranscript10`. -/
theorem demo_fallback_eval :
    fallback_highlights demoTranscript10 3 20 40 =
      [{ start_time := 0, end_time := 88/3, text := ("hello").data,
         score := some (1/2), title := ("Highlight 1").data },
       { start_time := 236/3, end_time := 88, text := ("world").data,
         score := some (1/2), title := ("Highlight 3").data }] := by
  norm_num +decide [fallback_highlights, demoTranscript10, fallbackLoop, windowText,
    pyStrip, natChars]

/-- C2 counterexample: a detection call (here resolving to the fallback
path) on a transcript spanning [0, 88] with min_duration 20 and
max_duration 40 returns a final highlight of duration 28/3 < 20 even
though the global transcript span, 88, is not shorter than min_duration. -/
theorem C2_counterexample :
    detect_highlightsE ratStd (some PyErr.featureFailure) none demoTranscript10 3 20 40 =
      .ok [{ start_time := 0, end_time := 88/3, text := ("hello").data,
             score := some (1/2), title := ("Highlight 1").data },
           { start_time := 236/3, end_time := 88, text := ("world").data,
             score := some (1/2), title := ("Highlight 3").data }] ∧
    globalSpan demoTranscript10 = 88 ∧ ¬(globalSpan demoTranscript10 < 20) ∧
    (88 : ℚ) - 236/3 < 20 := by
  have h1 : detect_highlightsE ratStd (some PyErr.featureFailure) none
      demoTranscript10 3 20 40 = .ok (fallback_highlights demoTranscript10 3 20 40) := rfl
  refine ⟨?_, ?_, ?_, by norm_num⟩
  · rw [h1, demo_fallback_eval]
  · norm_num [globalSpan, lastStop, firstStart, demoTranscript10]
  · norm_num [globalSpan, lastStop, firstStart, demoTranscript10]

/-- Witness for C2 amended at the final highlight of the concrete fallback
call: its duration 28/3 stays below min_duration only because it ends at
the transcript's last end. -/
theorem C2_durations_amended_witness :
    (88 : ℚ) - 236/3 ≤ 40 ∧
    ((20 : ℚ) ≤ 88 - 236/3 ∨ (236/3 : ℚ) = 0 ∨ (88 : ℚ) = lastStop demoTranscript10) :=
  C2_durations_amended ratStd (some PyErr.featureFailure) none demoTranscript10 3 20 40
    (fallback_highlights demoTranscript10 3 20 40) (by norm_num) rfl
    { start_time := 236/3, end_time := 88, text := ("world").data,
      score := some (1/2), title := ("Highlight 3").data }
    (by rw [demo_fallback_eval]; simp)

end YT
